import Mathlib

set_option maxRecDepth 100000

/-!
Verification development for the Google Maps scraper `scrape_v5.py`.

The Python source is shallowly embedded below: pure helper functions
(`normalize_place_name`, `clean_address`, `clean_website_url`, the
fuzzywuzzy similarity scores, the relative-date resolver) become Lean
functions over `String` / `List Char`; the effectful orchestration
(`scrape_place`, `scrape_csv_file`, `merge_files`) is embedded by passing
the outcome of every page interaction (a value, or an exception) in
explicitly, with `Except Unit` marking a step that raises.

Unicode handling: the source relies on Python's `str.lower`, the
`unidecode` library and the Unicode-aware `\w`/`\s` regex classes.  These
are modelled on the character repertoire the program actually processes:
ASCII plus the Vietnamese alphabet (the table `vnTriples` below); other
characters are left unchanged.
-/

/-- Python's `\s` class (ASCII range): space, tab, newline, carriage
return, vertical tab, form feed. -/
def isWs (c : Char) : Bool :=
  c == ' ' || c == '\t' || c == '\n' || c == '\r' || c == '\x0b' || c == '\x0c'

/-- The Vietnamese alphabet beyond ASCII, as triples
`(uppercase, lowercase, ASCII base letter)`.  This is the part of
Python's `str.lower` and of the `unidecode` transliteration table that
the scraper's Vietnamese/English data exercises. -/
def vnTriples : List (Char × Char × Char) :=
  [('Á','á','a'), ('À','à','a'), ('Ả','ả','a'), ('Ã','ã','a'), ('Ạ','ạ','a'),
   ('Ă','ă','a'), ('Ắ','ắ','a'), ('Ằ','ằ','a'), ('Ẳ','ẳ','a'), ('Ẵ','ẵ','a'), ('Ặ','ặ','a'),
   ('Â','â','a'), ('Ấ','ấ','a'), ('Ầ','ầ','a'), ('Ẩ','ẩ','a'), ('Ẫ','ẫ','a'), ('Ậ','ậ','a'),
   ('É','é','e'), ('È','è','e'), ('Ẻ','ẻ','e'), ('Ẽ','ẽ','e'), ('Ẹ','ẹ','e'),
   ('Ê','ê','e'), ('Ế','ế','e'), ('Ề','ề','e'), ('Ể','ể','e'), ('Ễ','ễ','e'), ('Ệ','ệ','e'),
   ('Í','í','i'), ('Ì','ì','i'), ('Ỉ','ỉ','i'), ('Ĩ','ĩ','i'), ('Ị','ị','i'),
   ('Ó','ó','o'), ('Ò','ò','o'), ('Ỏ','ỏ','o'), ('Õ','õ','o'), ('Ọ','ọ','o'),
   ('Ô','ô','o'), ('Ố','ố','o'), ('Ồ','ồ','o'), ('Ổ','ổ','o'), ('Ỗ','ỗ','o'), ('Ộ','ộ','o'),
   ('Ơ','ơ','o'), ('Ớ','ớ','o'), ('Ờ','ờ','o'), ('Ở','ở','o'), ('Ỡ','ỡ','o'), ('Ợ','ợ','o'),
   ('Ú','ú','u'), ('Ù','ù','u'), ('Ủ','ủ','u'), ('Ũ','ũ','u'), ('Ụ','ụ','u'),
   ('Ư','ư','u'), ('Ứ','ứ','u'), ('Ừ','ừ','u'), ('Ử','ử','u'), ('Ữ','ữ','u'), ('Ự','ự','u'),
   ('Ý','ý','y'), ('Ỳ','ỳ','y'), ('Ỷ','ỷ','y'), ('Ỹ','ỹ','y'), ('Ỵ','ỵ','y'),
   ('Đ','đ','d')]

/-- The ASCII uppercase-to-lowercase table. -/
def asciiUpperLower : List (Char × Char) :=
  [('A','a'), ('B','b'), ('C','c'), ('D','d'), ('E','e'), ('F','f'), ('G','g'),
   ('H','h'), ('I','i'), ('J','j'), ('K','k'), ('L','l'), ('M','m'), ('N','n'),
   ('O','o'), ('P','p'), ('Q','q'), ('R','r'), ('S','s'), ('T','t'), ('U','u'),
   ('V','v'), ('W','w'), ('X','x'), ('Y','y'), ('Z','z')]

/-- One character of Python `str.lower`, on ASCII plus Vietnamese. -/
def lowerChar (c : Char) : Char :=
  match asciiUpperLower.find? (fun t => t.1 == c) with
  | some t => t.2
  | none =>
    match vnTriples.find? (fun t => t.1 == c) with
    | some t => t.2.1
    | none => c

/-- One character of the `unidecode` transliteration, on ASCII plus
lowercase Vietnamese (the source always lowercases before calling
`unidecode`). -/
def unidecChar (c : Char) : Char :=
  match vnTriples.find? (fun t => t.2.1 == c) with
  | some t => t.2.2
  | none => c

/-- Python `str.lower`. -/
def vnLower (s : String) : String := ⟨s.data.map lowerChar⟩

/-- The `unidecode` transliteration of a whole string. -/
def unidec (s : String) : String := ⟨s.data.map unidecChar⟩

/-- Python's regex `\w` class on the modelled repertoire: ASCII
alphanumerics, underscore, Vietnamese letters. -/
def isWordChar (c : Char) : Bool :=
  c.isAlphanum || c == '_' ||
    vnTriples.any (fun t => t.1 == c || t.2.1 == c)

/-- `pat` occurs as a contiguous substring of `s` (Python `pat in s`). -/
def containsSub (pat : List Char) : List Char → Bool
  | [] => pat.isEmpty
  | c :: t => pat.isPrefixOf (c :: t) || containsSub pat t

/-- String-level substring test (Python `pat in s`). -/
def containsStr (pat s : String) : Bool := containsSub pat.data s.data

/-- Search for `pat` bounded by word boundaries on both sides
(the regexes `\bsao\b`, `\bstar\b`).  `prevIsWord` records whether the
character just before the current position is a word character. -/
def wordSearchGo (pat : List Char) (prevIsWord : Bool) : List Char → Bool
  | [] => false
  | c :: t =>
    (!prevIsWord && pat.isPrefixOf (c :: t) &&
      (match (c :: t).drop pat.length with
       | [] => true
       | d :: _ => !isWordChar d)) ||
    wordSearchGo pat (isWordChar c) t

/-- Word-bounded search over a whole string (`re.search(r'\b...\b', s)`). -/
def containsWordBounded (pat s : String) : Bool := wordSearchGo pat.data false s.data

/-- Try the regex `\d+[,.]?\d*\s*\(\d` at the start of `s`.  The
greedy match is deterministic here: after the digit run an optional
`,`/`.`, another digit run and whitespace, the match succeeds exactly
when an opening parenthesis followed by a digit remains. -/
def ratingPatAt (s : List Char) : Bool :=
  match s with
  | [] => false
  | c :: rest =>
    c.isDigit &&
      (let r1 := rest.dropWhile Char.isDigit
       let r2 := match r1 with
                 | d :: r' => if d == ',' || d == '.' then r' else r1
                 | [] => r1
       let r3 := r2.dropWhile Char.isDigit
       let r4 := r3.dropWhile isWs
       match r4 with
       | '(' :: d :: _ => d.isDigit
       | _ => false)

/-- `re.search` of the rating pattern: try every start position. -/
def ratingPatSearch : List Char → Bool
  | [] => false
  | c :: t => ratingPatAt (c :: t) || ratingPatSearch t

/-- The literal (case-folded) entries of `invalid_patterns` in
`clean_address`; each is searched as a substring of the lowercased
input (`re.IGNORECASE`). -/
def denyLiterals : List String :=
  ["điểm thu hút", "điểm mốc", "đường đi", "mở cửa", "đóng cửa",
   "sắp đóng", "sắp mở", "khách sạn nghỉ", "bể bơi", "wi-fi",
   "được tài trợ", "của agoda", "booking.com", "đại lý du lịch",
   "công viên xe", "phòng cho thuê"]

/-- The denylist test of `clean_address` (`scrape_v5.py` lines 68-93):
the rating regex, the `·` separator, the literal phrases, and the
word-bounded `sao` / `star`. -/
def isInvalidAddr (addr : String) : Bool :=
  let low := (vnLower addr).data
  ratingPatSearch addr.data || containsSub ['·'] addr.data ||
    denyLiterals.any (fun l => containsSub l.data low) ||
    wordSearchGo "sao".data false low || wordSearchGo "star".data false low

/-- Split on whitespace runs, dropping empty pieces (Python
`str.split()`): a non-whitespace character extends the first word of
the split of the rest when the next character is also non-whitespace,
and otherwise starts a word of its own. -/
def splitWs : List Char → List (List Char)
  | [] => []
  | c :: rest =>
    if isWs c then splitWs rest
    else
      match rest with
      | [] => [[c]]
      | d :: _ =>
        if isWs d then [c] :: splitWs rest
        else
          match splitWs rest with
          | [] => [[c]]
          | w :: ws => (c :: w) :: ws

/-- `' '.join` (Python). -/
def joinSp : List (List Char) → List Char
  | [] => []
  | [w] => w
  | w :: ws => w ++ ' ' :: joinSp ws

/-- `re.sub(r'\s+', ' ', s).strip()`: collapse every whitespace run to a
single space and trim the ends. -/
def collapseWs (s : String) : String := ⟨joinSp (splitWs s.data)⟩

/-- The address keywords of `clean_address` (lines 98-103), checked as
substrings of the lowercased collapsed address. -/
def validKeywords : List String :=
  ["đường", "phố", "quận", "huyện", "tỉnh", "thành phố", "tp",
   "phường", "xã", "thị trấn", "ấp", "thôn", "số", "ngõ", "ngách",
   "street", "road", "district", "city", "province", "ward",
   "việt nam", "vietnam", "vn", "khánh hòa", "nha trang"]

/-- Keyword test of `clean_address` (`has_valid`). -/
def hasAddrKeyword (low : String) : Bool :=
  validKeywords.any (fun kw => containsSub kw.data low.data)

/-- `clean_address` (`scrape_v5.py` lines 62-112): reject inputs shorter
than 5 characters; reject any input matching the denylist; collapse
whitespace; accept exactly when an address keyword occurs in the
lowercased text, or a digit occurs and the collapsed text is longer
than 15 characters. -/
def clean_address (addr : String) : Option String :=
  if addr.length < 5 then none
  else if isInvalidAddr addr then none
  else if hasAddrKeyword (vnLower (collapseWs addr)) ||
      ((collapseWs addr).data.any Char.isDigit && decide (15 < (collapseWs addr).length))
  then some (collapseWs addr)
  else none

/-- One row update of the longest-common-subsequence dynamic program:
given the previous row (values for the previous prefix of `a` against
all prefixes of `b`), the current character `ca` of `a`, and the value
`cur` just computed for the new row, produce the rest of the new row. -/
def lcsRowGo (ca : Char) : List Char → List Nat → Nat → List Nat
  | [], _, _ => []
  | _ :: _, [], _ => []
  | cb :: bs, p0 :: rest, cur =>
    let v := if cb == ca then p0 + 1 else max cur (rest.headD 0)
    v :: lcsRowGo ca bs rest v

/-- Length of a longest common subsequence of `a` and `b`
(Wagner–Fischer dynamic program). -/
def lcsLen (a b : List Char) : Nat :=
  (a.foldl (fun row ca => 0 :: lcsRowGo ca b row 0)
    (List.replicate (b.length + 1) 0)).getLastD 0

/-- The Levenshtein distance with substitution cost 2 (insert/delete
cost 1), the `ldist` underlying `fuzz.ratio`; equivalently
`|a| + |b| - 2·lcs`. -/
def indelDist (a b : List Char) : Nat := a.length + b.length - 2 * lcsLen a b

/-- Python's `round`: round `num/den` to the nearest integer, ties to
even (`den ≠ 0` expected). -/
def roundHalfEven (num den : Nat) : Nat :=
  let q := num / den
  let r := num % den
  if 2 * r < den then q
  else if den < 2 * r then q + 1
  else if q % 2 == 0 then q else q + 1

/-- `fuzz.ratio`: `round(100 * (lensum - ldist) / lensum)` (ties to
even, as Python's `round`), and 100 for two empty strings.  This is the
python-Levenshtein scorer fuzzywuzzy is built for; its pure-python
difflib fallback can differ slightly on some pairs, but agrees on
equal strings (100) and on the concrete pairs used below. -/
def fuzzRatio (s1 s2 : String) : Nat :=
  let lensum := s1.length + s2.length
  if lensum = 0 then 100
  else roundHalfEven (100 * (lensum - indelDist s1.data s2.data)) lensum

/-- fuzzywuzzy `StringProcessor.replace_non_letters_non_numbers_with_whitespace`:
every non-`\w` character becomes a space. -/
def replaceNonWord (s : String) : String :=
  ⟨s.data.map (fun c => if isWordChar c then c else ' ')⟩

/-- Python `str.strip()`: drop whitespace at both ends. -/
def stripEnds (s : List Char) : List Char :=
  ((s.dropWhile isWs).reverse.dropWhile isWs).reverse

/-- fuzzywuzzy `utils.full_process`: replace non-word characters by
spaces, lowercase, strip. -/
def fullProcess (s : String) : String :=
  ⟨stripEnds (vnLower (replaceNonWord s)).data⟩

/-- Lexicographic code-point comparison of strings, Python's `<` on
`str` (and Lean's `String` order, written out so it computes by
structural recursion). -/
def lexLt : List Char → List Char → Bool
  | [], [] => false
  | [], _ :: _ => true
  | _ :: _, [] => false
  | a :: as, b :: bs => if a < b then true else if b < a then false else lexLt as bs

/-- Insert into a `<`-sorted list of strings (ties keep existing order,
as Python's stable `sorted`). -/
def insertStr (x : String) : List String → List String
  | [] => [x]
  | y :: ys => if lexLt x.data y.data then x :: y :: ys else y :: insertStr x ys

/-- Sort strings ascending (Python `sorted`). -/
def sortStrs : List String → List String
  | [] => []
  | x :: xs => insertStr x (sortStrs xs)

/-- `' '.join` at the `String` level. -/
def joinToks (l : List String) : String := ⟨joinSp (l.map String.data)⟩

/-- The whitespace-separated tokens of a processed string, as a set
(first occurrences kept; the set is sorted before use, so only
membership matters — Python builds `set(s.split())`). -/
def tokensOf (s : String) : List String :=
  ((splitWs s.data).map (fun l => (⟨l⟩ : String))).dedup

/-- fuzzywuzzy `fuzz.token_set_ratio`: process both strings, split into
token sets, and take the best plain ratio among
(sorted intersection, intersection + differences of either side). -/
def tokenSetRatio (s1 s2 : String) : Nat :=
  let p1 := fullProcess s1
  let p2 := fullProcess s2
  if p1.length = 0 || p2.length = 0 then 0
  else
    let t1 := tokensOf p1
    let t2 := tokensOf p2
    let sect := sortStrs (t1.filter (fun w => t2.contains w))
    let d1 := sortStrs (t1.filter (fun w => !t2.contains w))
    let d2 := sortStrs (t2.filter (fun w => !t1.contains w))
    let s0 := joinToks sect
    let c1 := joinToks (sect ++ d1)
    let c2 := joinToks (sect ++ d2)
    max (fuzzRatio s0 c1) (max (fuzzRatio s0 c2) (fuzzRatio c1 c2))

/-- Index of the first `-` that, after optional whitespace, is followed
by `kw` (the regex `\s*-\s*kw` of `normalize_place_name`; the match is
anchored to the end by `.*$`). -/
def findDashKw (kw : List Char) : List Char → Option Nat
  | [] => none
  | c :: t =>
    if c == '-' && kw.isPrefixOf (t.dropWhile isWs) then some 0
    else (findDashKw kw t).map (· + 1)

/-- Drop trailing whitespace only. -/
def dropTrailWs (s : List Char) : List Char := (s.reverse.dropWhile isWs).reverse

/-- `re.sub(r'\s*-\s*kw.*$', '', s)`: cut the string at the first
qualifying `-` (together with the whitespace run just before it). -/
def stripTailKw (kw : List Char) (s : List Char) : List Char :=
  match findDashKw kw s with
  | none => s
  | some i => dropTrailWs (s.take i)

/-- `re.sub(r'[^\w\s]', ' ', s)`. -/
def punctToSpace (s : List Char) : List Char :=
  s.map (fun c => if isWordChar c || isWs c then c else ' ')

/-- `normalize_place_name` (`scrape_v5.py` lines 35-44): lowercase,
transliterate diacritics, cut a trailing `- chi nhanh ...` or
`- branch ...` qualifier, replace punctuation by spaces, collapse
whitespace. -/
def normalize_place_name (name : String) : String :=
  if name.length = 0 then ""
  else
    let s1 := unidec (vnLower name)
    let s2 := stripTailKw "chi nhanh".data s1.data
    let s3 := stripTailKw "branch".data s2
    ⟨joinSp (splitWs (punctToSpace s3))⟩

/-- The score the matcher gives one candidate name against the
normalized seed name (`scrape_v5.py` line 823):
`max(fuzz.ratio, fuzz.token_set_ratio)` of the normalized strings. -/
def scoreStrings (q c : String) : Nat := max (fuzzRatio q c) (tokenSetRatio q c)

/-- The scores of the first 10 candidates (`links[:10]`). -/
def candidateScores (name : String) (cands : List String) : List Nat :=
  let q := normalize_place_name name
  (cands.take 10).map (fun c => scoreStrings q (normalize_place_name c))

/-- The best-candidate loop state: fold over `(index, score)` pairs,
keeping the first strictly improving score
(`if score > best_score: best_score, best_link = score, link`). -/
def bestFold : List (Nat × Nat) → Nat × Option Nat → Nat × Option Nat
  | [], acc => acc
  | (i, s) :: rest, acc => bestFold rest (if acc.1 < s then (s, some i) else acc)

/-- Run the best-candidate loop (`best_score = 0`, `best_link = None`). -/
def runBest (name : String) (cands : List String) : Nat × Option Nat :=
  bestFold (List.enumFrom 0 (candidateScores name cands)) (0, none)

/-- The candidate the scraper navigates to, by position in the result
list (`scrape_v5.py` lines 830-837): the best-scoring candidate when
its score reaches 50, else the first candidate; `none` only when the
candidate list is empty. -/
def selectCandidate (name : String) (cands : List String) : Option Nat :=
  match runBest name cands with
  | (bs, some i) => if 50 ≤ bs then some i else if cands.isEmpty then none else some 0
  | (_, none) => if cands.isEmpty then none else some 0

/-- Numeric value of a digit run. -/
def digitsVal (l : List Char) : Nat := l.foldl (fun a c => 10 * a + (c.toNat - 48)) 0

/-- `re.search(r'(\d+)', s)`: value of the first maximal digit run. -/
def firstInt : List Char → Option Nat
  | [] => none
  | c :: t =>
    if c.isDigit then some (digitsVal ((c :: t).takeWhile Char.isDigit))
    else firstInt t

/-- `any(x in text for x in toks)`. -/
def containsAnyTok (toks : List String) (text : String) : Bool :=
  toks.any (fun k => containsSub k.data text.data)

/-- The unit cascade of `_convert_relative_date` (lines 558-567), as the
day-equivalent of one unit: day 1, week 7, month 30, year 365; `none`
when no unit token occurs. -/
def unitDays (text : String) : Option Nat :=
  if containsAnyTok ["day", "ngày", "ngay"] text then some 1
  else if containsAnyTok ["week", "tuần", "tuan"] text then some 7
  else if containsAnyTok ["month", "tháng", "thang"] text then some 30
  else if containsAnyTok ["year", "năm", "nam"] text then some 365
  else none

/-- `GoogleMapsScraper._convert_relative_date` (lines 545-571), with
dates modelled as proleptic-Gregorian ordinal day numbers (Python
`date.toordinal`; valid datetimes have ordinals `1..3652059`) and the
capture instant `datetime.now()` passed in as `nowOrd`.  The count is
the first integer in the lowercased text, defaulting to 1.  A
`timedelta` beyond 999999999 days, or a subtraction leaving the valid
range, raises `OverflowError` in the source, which the catch-all turns
into `None`; the calendar formatting `strftime('%d/%m/%Y')` is dropped
in favour of the ordinal itself. -/
def convert_relative_date (nowOrd : Nat) (relative_time : String) : Option Nat :=
  if relative_time.length = 0 then none
  else
    match unitDays (vnLower relative_time) with
    | none => none
    | some u =>
      if (firstInt (vnLower relative_time).data).getD 1 * u ≤ 999999999 ∧
          (firstInt (vnLower relative_time).data).getD 1 * u < nowOrd
      then some (nowOrd - (firstInt (vnLower relative_time).data).getD 1 * u)
      else none

/-- Hexadecimal digit test. -/
def isHexDig (c : Char) : Bool :=
  c.isDigit || ('a' ≤ c && c ≤ 'f') || ('A' ≤ c && c ≤ 'F')

/-- Hexadecimal digit value. -/
def hexVal (c : Char) : Nat :=
  if c.isDigit then c.toNat - 48
  else if 'a' ≤ c && c ≤ 'f' then c.toNat - 87
  else if 'A' ≤ c && c ≤ 'F' then c.toNat - 55
  else 0

/-- `urllib.parse.unquote`, modelled byte-wise: each valid `%XX` escape
becomes the character of that code point (multi-byte UTF-8 escape
sequences are decoded per byte), anything else is kept. -/
def percentDecode : List Char → List Char
  | [] => []
  | '%' :: a :: b :: t =>
    if isHexDig a && isHexDig b then Char.ofNat (16 * hexVal a + hexVal b) :: percentDecode t
    else '%' :: percentDecode (a :: b :: t)
  | c :: t => c :: percentDecode t

/-- `re.search(r'[?&]q=([^&]+)', url)`: the capture of the first
position where `?` or `&` is followed by `q=` and at least one
non-`&` character. -/
def findQParam : List Char → Option (List Char)
  | [] => none
  | c :: t =>
    if (c == '?' || c == '&') && "q=".data.isPrefixOf t then
      let v := (t.drop 2).takeWhile (fun d => d != '&')
      if v.isEmpty then findQParam t else some v
    else findQParam t

/-- `clean_website_url` (`scrape_v5.py` lines 115-130): a
`google.com/url?q=` redirect wrapper is unwrapped to its unquoted `q`
parameter and returned at once; otherwise any URL containing
`google.com/maps` is rejected, and everything else passes through. -/
def clean_website_url (url : String) : Option String :=
  if url.length = 0 then none
  else if containsStr "google.com/url" url && containsStr "?q=" url then
    match findQParam url.data with
    | some v => some ⟨percentDecode v⟩
    | none => if containsStr "google.com/maps" url then none else some url
  else if containsStr "google.com/maps" url then none
  else some url

/-- The thumbnail-size denylist of `_get_images` (line 681). -/
def imgSmallTokens : List String := ["=w30", "=w48", "=w24", "=w32", "=w64", "=w36"]

/-- `re.search(r'=w(\d+)', src)`: the value of the first `=w` token that
is followed by at least one digit. -/
def firstWidthTok : List Char → Option Nat
  | [] => none
  | c :: t =>
    if c == '=' then
      match t with
      | 'w' :: d :: r =>
        if d.isDigit then some (digitsVal ((d :: r).takeWhile Char.isDigit))
        else firstWidthTok t
      | _ => firstWidthTok t
    else firstWidthTok t

/-- `src.split('=w')[0]`: the prefix before the first `=w`. -/
def baseBefore : List Char → List Char
  | [] => []
  | c :: t =>
    if c == '=' && (match t with | 'w' :: _ => true | _ => false) then []
    else c :: baseBefore t

/-- The filter of `_get_images` (lines 680-685): asset-CDN host
substring, an `=w` size token present, no small-width token anywhere in
the URL, and the first `=w<digits>` token at least 100. -/
def keepImg (src : String) : Bool :=
  (containsStr "googleusercontent.com" src || containsStr "ggpht.com" src) &&
    containsStr "=w" src &&
    !(imgSmallTokens.any (fun t => containsStr t src)) &&
    (match firstWidthTok src.data with
     | some n => decide (100 ≤ n)
     | none => false)

/-- The collection loop of `_get_images` (lines 677-691): `seen` holds
the base URLs already taken, `cnt` the number of images collected;
collection stops as soon as the third image is appended. -/
def imagesLoop (seen : List (List Char)) (cnt : Nat) : List (Option String) → List String
  | [] => []
  | none :: rest => imagesLoop seen cnt rest
  | some src :: rest =>
    if keepImg src then
      let b := baseBefore src.data
      if b ∈ seen then imagesLoop seen cnt rest
      else if 3 ≤ cnt + 1 then [src]
      else src :: imagesLoop (b :: seen) (cnt + 1) rest
    else imagesLoop seen cnt rest

/-- `GoogleMapsScraper._get_images` (lines 660-697), as a function of
the `src` attributes of all `img` elements on the page (an attribute
may be missing, hence `Option`). -/
def get_images (srcs : List (Option String)) : List String := imagesLoop [] 0 srcs

/-- One parsed review (`_get_comments`); the relative-time phrase is
already resolved to an ordinal date as in `convert_relative_date`. -/
structure ReviewEntry where
  author : String
  rating : Float
  text : String
  date : Option Nat

/-- One input row of the seed CSV (`scrape_csv_file` lines 917-925). -/
structure Seed where
  place_id : String
  name : String
  address : String
  lat : Float
  lon : Float
  type : String

/-- The output record one seed produces (the `result` dictionary of
`scrape_place`, lines 776-793, plus the `place_id`/`type` keys the
batch loop adds at lines 944-945).  Opening hours become an association
list day-name ↦ time-range. -/
structure PlaceResult where
  name : String
  original_address : String
  new_address : Option String
  lat : Float
  lon : Float
  category : Option String
  about : Option (List String)
  rating : Option Float
  rating_count : Option Nat
  price_level : Option String
  images : List String
  phone : Option String
  website : Option String
  google_maps_url : Option String
  opening_hours : Option (List (String × String))
  comments : List ReviewEntry
  place_id : Option String
  type : Option String

/-- The outcome of every externally-visible step `scrape_place` takes,
in source order: the navigation/candidate-resolution phase (producing
the final page URL) and each extractor call.  `Except.error ()` marks a
step that raises; every extractor in the source has a catch-all that
returns `None`/empty instead of raising, so modelling each step as
possibly raising is a superset of the source's behaviours (the
progress `print` between steps can still raise, e.g. on encoding
errors). -/
structure PageOutcomes where
  nav : Except Unit String
  rating : Except Unit (Option Float × Option Nat)
  category : Except Unit (Option String)
  price_level : Except Unit (Option String)
  new_address : Except Unit (Option String)
  phone : Except Unit (Option String)
  website : Except Unit (Option String)
  opening_hours : Except Unit (Option (List (String × String)))
  images : Except Unit (List String)
  about : Except Unit (Option (List String))
  comments : Except Unit (List ReviewEntry)

/-- The `result` dictionary as initialised at lines 776-793, before the
`try` block runs. -/
def initResult (seed : Seed) : PlaceResult :=
  { name := seed.name, original_address := seed.address, new_address := none,
    lat := seed.lat, lon := seed.lon, category := none, about := none,
    rating := none, rating_count := none, price_level := none, images := [],
    phone := none, website := none, google_maps_url := none,
    opening_hours := none, comments := [], place_id := none, type := none }

/-- `GoogleMapsScraper.scrape_place` (lines 772-887): run the steps in
source order inside one `try`; the first step that raises jumps to the
catch-all at line 884, which returns the record assembled so far. -/
def scrape_place (seed : Seed) (page : PageOutcomes) : PlaceResult :=
  let r0 := initResult seed
  match page.nav with
  | .error _ => r0
  | .ok url =>
    let r1 := { r0 with google_maps_url := some url }
    match page.rating with
    | .error _ => r1
    | .ok rc =>
      let r2 := { r1 with rating := rc.1, rating_count := rc.2 }
      match page.category with
      | .error _ => r2
      | .ok v =>
        let r3 := { r2 with category := v }
        match page.price_level with
        | .error _ => r3
        | .ok v =>
          let r4 := { r3 with price_level := v }
          match page.new_address with
          | .error _ => r4
          | .ok v =>
            let r5 := { r4 with new_address := v }
            match page.phone with
            | .error _ => r5
            | .ok v =>
              let r6 := { r5 with phone := v }
              match page.website with
              | .error _ => r6
              | .ok v =>
                let r7 := { r6 with website := v }
                match page.opening_hours with
                | .error _ => r7
                | .ok v =>
                  let r8 := { r7 with opening_hours := v }
                  match page.images with
                  | .error _ => r8
                  | .ok v =>
                    let r9 := { r8 with images := v }
                    match page.about with
                    | .error _ => r9
                    | .ok v =>
                      let r10 := { r9 with about := v }
                      match page.comments with
                      | .error _ => r10
                      | .ok v => { r10 with comments := v }

/-- How one batch iteration goes: `throws` is a record-level exception
reaching the `except` at line 953 (e.g. `init_driver` failing before
`scrape_place`'s own `try`), `runs page` is `scrape_place` returning
normally with the given step outcomes. -/
inductive SeedRun where
  | throws
  | runs (page : PageOutcomes)

/-- Whether an iteration completes without a record-level exception. -/
def SeedRun.isRun : SeedRun → Bool
  | .throws => false
  | .runs _ => true

/-- The record appended for a seed (lines 943-947): the `scrape_place`
result with the seed's `place_id` and `type` added. -/
def batchRecord (seed : Seed) (page : PageOutcomes) : PlaceResult :=
  { scrape_place seed page with place_id := some seed.place_id, type := some seed.type }

/-- Accumulated records and the checkpoint file contents (`none` =
nothing written yet). -/
structure BatchState where
  data : List PlaceResult
  disk : Option (List PlaceResult)

/-- Records on disk. -/
def diskCount (st : BatchState) : Nat := (st.disk.map List.length).getD 0

/-- One iteration of the batch loop (lines 938-955), at 1-based index
`i`: a throwing seed is logged and skipped (`continue`); otherwise its
record is appended and, every 10th iteration, all accumulated records
are checkpointed to disk. -/
def batchStep (i : Nat) (st : BatchState) : Seed × SeedRun → BatchState
  | (_, .throws) => st
  | (s, .runs page) =>
    let d := st.data ++ [batchRecord s page]
    { data := d, disk := if i % 10 == 0 then some d else st.disk }

/-- The batch loop from index `i`. -/
def batchLoop (i : Nat) (st : BatchState) : List (Seed × SeedRun) → BatchState
  | [] => st
  | p :: rest => batchLoop (i + 1) (batchStep i st p) rest

/-- The state after the first `k` iterations — the crash/interruption
point of the checkpoint property. -/
def batchAfter (seeds : List Seed) (runsL : List SeedRun) (k : Nat) : BatchState :=
  batchLoop 1 ⟨[], none⟩ ((seeds.zip runsL).take k)

/-- `scrape_csv_file`'s processing loop plus the unconditional final
write (lines 957-958): run all iterations, then write all accumulated
records. -/
def scrape_csv_file (seeds : List Seed) (runsL : List SeedRun) : BatchState :=
  let st := batchLoop 1 ⟨[], none⟩ (seeds.zip runsL)
  { st with disk := some st.data }

/-- Insert a shard file into a filename-sorted list (`sorted(files)`). -/
def insertShard (x : String × List PlaceResult) :
    List (String × List PlaceResult) → List (String × List PlaceResult)
  | [] => [x]
  | y :: ys => if lexLt x.1.data y.1.data then x :: y :: ys else y :: insertShard x ys

/-- Sort shard files by filename. -/
def sortShards : List (String × List PlaceResult) → List (String × List PlaceResult)
  | [] => []
  | x :: xs => insertShard x (sortShards xs)

/-- `all_data`: concatenation of the shard contents in file-sort order
(lines 976-980). -/
def allShardData (shards : List (String × List PlaceResult)) : List PlaceResult :=
  ((sortShards shards).map Prod.snd).flatten

/-- The dedup comprehension at line 983: keep a record iff its
`place_id` (a possibly-missing key, `x.get('place_id')`) has not been
seen yet. -/
def dedupById (seen : List (Option String)) : List PlaceResult → List PlaceResult
  | [] => []
  | x :: xs =>
    if x.place_id ∈ seen then dedupById seen xs
    else x :: dedupById (x.place_id :: seen) xs

/-- `merge_files` (lines 968-991), as a function of the matched shard
files (filename, parsed contents): no matching files is a report-and-
return no-op (`none`, nothing written); otherwise the sorted
concatenation is deduplicated by `place_id` and written out. -/
def merge_files (shards : List (String × List PlaceResult)) : Option (List PlaceResult) :=
  match shards with
  | [] => none
  | _ :: _ => some (dedupById [] (allShardData shards))

/-- A page state where every step raises (concrete instance material). -/
def pageErr : PageOutcomes :=
  { nav := .error (), rating := .error (), category := .error (),
    price_level := .error (), new_address := .error (), phone := .error (),
    website := .error (), opening_hours := .error (), images := .error (),
    about := .error (), comments := .error () }

/-- A concrete seed row (concrete instance material). -/
def seedEx : Seed :=
  { place_id := "p7", name := "Cafe A", address := "1 Duong Le Loi",
    lat := 10, lon := 106, type := "cafe" }

/-- A minimal output record with a given identifier and name (concrete
instance material for the merge tool). -/
def mkRec (pid nm : String) : PlaceResult :=
  { initResult { place_id := pid, name := nm, address := "x",
                 lat := 0, lon := 0, type := "t" } with
    place_id := some pid }

/-- Two overlapping shard files: both contain identifier `p1`, and
`a.json` sorts before `b.json`. -/
def shardsEx : List (String × List PlaceResult) :=
  [("b.json", [mkRec "p1" "from b", mkRec "p3" "c"]),
   ("a.json", [mkRec "p1" "from a", mkRec "p2" "b"])]

/-! ### Properties of whitespace collapsing -/

theorem splitWs_cons (c : Char) (rest : List Char) :
    splitWs (c :: rest) =
      if isWs c then splitWs rest
      else
        match rest with
        | [] => [[c]]
        | d :: _ =>
          if isWs d then [c] :: splitWs rest
          else
            match splitWs rest with
            | [] => [[c]]
            | w :: ws => (c :: w) :: ws := rfl

theorem splitWs_ws (c : Char) (rest : List Char) (hc : isWs c = true) :
    splitWs (c :: rest) = splitWs rest := by
  rw [splitWs_cons, if_pos hc]

theorem splitWs_one (c : Char) (hc : isWs c = false) : splitWs [c] = [[c]] := by
  rw [splitWs_cons]
  simp [hc]

theorem splitWs_cons_ws (c d : Char) (t : List Char) (hc : isWs c = false)
    (hd : isWs d = true) : splitWs (c :: d :: t) = [c] :: splitWs (d :: t) := by
  rw [splitWs_cons]
  simp [hc, hd]

theorem splitWs_cons_nws (c d : Char) (t : List Char) (hc : isWs c = false)
    (hd : isWs d = false) :
    splitWs (c :: d :: t) =
      match splitWs (d :: t) with
      | [] => [[c]]
      | w :: ws => (c :: w) :: ws := by
  rw [splitWs_cons]
  simp [hc, hd]

/-- Every word `splitWs` produces is nonempty and whitespace-free. -/
theorem splitWs_words (s : List Char) :
    ∀ w ∈ splitWs s, w ≠ [] ∧ ∀ c ∈ w, isWs c = false := by
  induction s with
  | nil => intro w hw; simp [splitWs] at hw
  | cons c rest ih =>
    intro w hw
    rcases hc : isWs c with _ | _
    · cases rest with
      | nil =>
        rw [splitWs_one c hc] at hw
        simp only [List.mem_singleton] at hw
        subst hw
        exact ⟨by simp, by intro d hd; simp only [List.mem_singleton] at hd; simpa [hd]⟩
      | cons d t =>
        rcases hd : isWs d with _ | _
        · rw [splitWs_cons_nws c d t hc hd] at hw
          rcases hr : splitWs (d :: t) with _ | ⟨w₀, ws⟩
          · rw [hr] at hw
            simp only [List.mem_singleton] at hw
            subst hw
            exact ⟨by simp, by intro e he; simp only [List.mem_singleton] at he; simpa [he]⟩
          · rw [hr] at hw
            simp only [] at hw
            rcases List.mem_cons.mp hw with h | h
            · subst h
              obtain ⟨-, hw₀⟩ := ih w₀ (hr ▸ List.mem_cons_self w₀ ws)
              refine ⟨by simp, ?_⟩
              intro e he
              rcases List.mem_cons.mp he with h | h
              · subst h; exact hc
              · exact hw₀ e h
            · exact ih w (hr ▸ List.mem_cons_of_mem w₀ h)
        · rw [splitWs_cons_ws c d t hc hd] at hw
          rcases List.mem_cons.mp hw with h | h
          · subst h
            exact ⟨by simp, by intro e he; simp only [List.mem_singleton] at he; simpa [he]⟩
          · exact ih w h
    · rw [splitWs_ws c rest hc] at hw
      exact ih w hw

/-- A single nonempty whitespace-free word splits to itself. -/
theorem splitWs_single :
    ∀ w : List Char, w ≠ [] → (∀ c ∈ w, isWs c = false) → splitWs w = [w] := by
  intro w
  induction w with
  | nil => intro h; exact absurd rfl h
  | cons c t ih =>
    intro _ h
    have hc : isWs c = false := h c (List.mem_cons_self c t)
    cases t with
    | nil => exact splitWs_one c hc
    | cons d t' =>
      have hd : isWs d = false := h d (List.mem_cons_of_mem c (List.mem_cons_self d t'))
      have ht := ih (by simp) fun e he => h e (List.mem_cons_of_mem c he)
      rw [splitWs_cons_nws c d t' hc hd, ht]

/-- Splitting a word, a space, and a remainder splits the word off. -/
theorem splitWs_word_space :
    ∀ w : List Char, w ≠ [] → (∀ c ∈ w, isWs c = false) →
      ∀ rest, splitWs (w ++ ' ' :: rest) = w :: splitWs rest := by
  intro w
  induction w with
  | nil => intro h; exact absurd rfl h
  | cons c t ih =>
    intro _ h rest
    have hc : isWs c = false := h c (List.mem_cons_self c t)
    cases t with
    | nil =>
      rw [List.cons_append, List.nil_append, splitWs_cons_ws c ' ' rest hc (by simp [isWs]),
        splitWs_ws ' ' rest (by simp [isWs])]
    | cons d t' =>
      have hd : isWs d = false := h d (List.mem_cons_of_mem c (List.mem_cons_self d t'))
      have ht := ih (by simp) (fun e he => h e (List.mem_cons_of_mem c he)) rest
      rw [List.cons_append, show (d :: t') ++ ' ' :: rest = d :: (t' ++ ' ' :: rest) from rfl,
        splitWs_cons_nws c d (t' ++ ' ' :: rest) hc hd,
        show d :: (t' ++ ' ' :: rest) = (d :: t') ++ ' ' :: rest from rfl, ht]

/-- `splitWs` undoes `joinSp` on lists of nonempty whitespace-free
words. -/
theorem splitWs_joinSp :
    ∀ ws : List (List Char),
      (∀ w ∈ ws, w ≠ [] ∧ ∀ c ∈ w, isWs c = false) → splitWs (joinSp ws) = ws := by
  intro ws
  induction ws with
  | nil => intro _; rfl
  | cons w ws' ih =>
    intro h
    obtain ⟨hw, hwc⟩ := h w (List.mem_cons_self w ws')
    cases ws' with
    | nil => exact splitWs_single w hw hwc
    | cons w' ws'' =>
      show splitWs (w ++ ' ' :: joinSp (w' :: ws'')) = w :: w' :: ws''
      rw [splitWs_word_space w hw hwc, ih fun v hv => h v (List.mem_cons_of_mem _ hv)]

/-- Collapsing whitespace is idempotent. -/
theorem collapseWs_idem (s : String) : collapseWs (collapseWs s) = collapseWs s := by
  show (⟨joinSp (splitWs (joinSp (splitWs s.data)))⟩ : String) = ⟨joinSp (splitWs s.data)⟩
  rw [splitWs_joinSp _ (splitWs_words s.data)]

/-- Full characterization of a successful `clean_address` run. -/
theorem clean_address_some_iff (a r : String) :
    clean_address a = some r ↔
      5 ≤ a.length ∧ isInvalidAddr a = false ∧ r = collapseWs a ∧
        (hasAddrKeyword (vnLower (collapseWs a)) = true ∨
          ((collapseWs a).data.any Char.isDigit = true ∧ 15 < (collapseWs a).length)) := by
  constructor
  · intro h
    unfold clean_address at h
    by_cases h5 : a.length < 5
    · rw [if_pos h5] at h
      exact absurd h (by simp)
    · rw [if_neg h5] at h
      by_cases hd : isInvalidAddr a
      · rw [if_pos hd] at h
        exact absurd h (by simp)
      · rw [if_neg hd] at h
        split at h
        · rename_i hb
          have hr := Option.some.inj h
          refine ⟨by omega, by simpa using hd, hr.symm, ?_⟩
          simpa using hb
        · exact absurd h (by simp)
  · rintro ⟨h5, hd, rfl, hcond⟩
    unfold clean_address
    rw [if_neg (by omega), if_neg (by simp [hd]), if_pos (by simpa using hcond)]

/-- C2: `clean_address` rejects every input shorter than 5 characters
or matching a denylist pattern (rating fragments, open/close labels,
sponsorship markers, amenity snippets); otherwise it returns exactly
the whitespace-collapsed input, precisely when an address keyword
(Vietnamese or English administrative-division vocabulary) occurs in
the lowercased text, or a digit occurs and the collapsed text is longer
than 15 characters.  In particular "4,1(903)" and "Đường đi" are
rejected and "123 Đường Lê Lợi, Quận 1, TP.HCM" is accepted
unchanged. -/
theorem clean_address_validation :
    (∀ a : String, a.length < 5 ∨ isInvalidAddr a = true → clean_address a = none) ∧
    (∀ a : String, 5 ≤ a.length → isInvalidAddr a = false →
      (clean_address a = some (collapseWs a) ↔
        hasAddrKeyword (vnLower (collapseWs a)) = true ∨
          ((collapseWs a).data.any Char.isDigit = true ∧ 15 < (collapseWs a).length))) ∧
    (∀ a r : String, clean_address a = some r → r = collapseWs a) ∧
    clean_address "4,1(903)" = none ∧
    clean_address "Đường đi" = none ∧
    clean_address "123 Đường Lê Lợi, Quận 1, TP.HCM" =
      some "123 Đường Lê Lợi, Quận 1, TP.HCM" := by
  refine ⟨?_, ?_, ?_, by decide, by decide, by decide⟩
  · intro a h
    unfold clean_address
    rcases h with h | h
    · rw [if_pos h]
    · by_cases h5 : a.length < 5
      · rw [if_pos h5]
      · rw [if_neg h5, if_pos h]
  · intro a h5 hd
    rw [clean_address_some_iff]
    simp [h5, hd]
  · intro a r h
    exact ((clean_address_some_iff a r).mp h).2.2.1

/-- Witness: the three branches of C2 at concrete inputs. -/
theorem clean_address_validation_witness :
    clean_address "ab" = none ∧
    (clean_address "123 Đường Lê Lợi, Quận 1, TP.HCM" =
        some (collapseWs "123 Đường Lê Lợi, Quận 1, TP.HCM") ↔
      hasAddrKeyword (vnLower (collapseWs "123 Đường Lê Lợi, Quận 1, TP.HCM")) = true ∨
        ((collapseWs "123 Đường Lê Lợi, Quận 1, TP.HCM").data.any Char.isDigit = true ∧
          15 < (collapseWs "123 Đường Lê Lợi, Quận 1, TP.HCM").length)) ∧
    "tp x" = collapseWs "tp   x" :=
  ⟨clean_address_validation.1 "ab" (Or.inl (by decide)),
   clean_address_validation.2.1 "123 Đường Lê Lợi, Quận 1, TP.HCM" (by decide) (by decide),
   clean_address_validation.2.2.1 "tp   x" "tp x" (by decide)⟩

/-- C8 counterexample: idempotence fails as stated.  Collapsing the
whitespace of "tp   x" yields "tp x", which `clean_address` accepts
(keyword "tp"), but "tp x" has only 4 characters, so a second
application rejects it. -/
theorem clean_address_not_idempotent :
    clean_address "tp   x" = some "tp x" ∧ clean_address "tp x" = none := by
  constructor
  · decide
  · decide

/-- C8 (amended): `clean_address` is idempotent on every input whose
result still has at least 5 characters and itself matches no denylist
pattern — in particular on already-collapsed inputs; the unamended
claim fails because collapsing whitespace can shrink the result below
the 5-character minimum or create a denylist match. -/
theorem clean_address_idempotent_when_stable :
    ∀ a r : String, clean_address a = some r → 5 ≤ r.length →
      isInvalidAddr r = false → clean_address r = some r := by
  intro a r h h5 hd
  obtain ⟨-, -, hr, hcond⟩ := (clean_address_some_iff a r).mp h
  rw [clean_address_some_iff]
  subst hr
  rw [collapseWs_idem]
  exact ⟨h5, hd, rfl, hcond⟩

/-- Witness: amended C8 at a concrete accepted address. -/
theorem clean_address_idempotent_when_stable_witness :
    clean_address "123 Đường Lê Lợi, Quận 1, TP.HCM" =
      some "123 Đường Lê Lợi, Quận 1, TP.HCM" :=
  clean_address_idempotent_when_stable "123 Đường Lê Lợi, Quận 1, TP.HCM"
    "123 Đường Lê Lợi, Quận 1, TP.HCM" (by decide) (by decide) (by decide)

/-! ### Properties of the candidate matcher -/

theorem foldrMax_le_seed (l : List (Nat × Nat)) (a : Nat) :
    a ≤ l.foldr (fun p m => max p.2 m) a := by
  induction l with
  | nil => exact le_refl a
  | cons p rest ih => exact le_trans ih (le_max_right _ _)

theorem foldrMax_merge (l : List (Nat × Nat)) (a b : Nat) :
    l.foldr (fun p m => max p.2 m) (max a b) =
      max a (l.foldr (fun p m => max p.2 m) b) := by
  induction l with
  | nil => rfl
  | cons p rest ih =>
    simp only [List.foldr_cons, ih, max_left_comm]

theorem enumFrom_foldr_max (l : List Nat) :
    ∀ (k : Nat) (a : Nat),
      (List.enumFrom k l).foldr (fun p m => max p.2 m) a = l.foldr max a := by
  induction l with
  | nil => intro k a; rfl
  | cons s rest ih =>
    intro k a
    simp only [List.enumFrom_cons, List.foldr_cons, ih]

theorem bestFold_fst (l : List (Nat × Nat)) :
    ∀ acc : Nat × Option Nat,
      (bestFold l acc).1 = l.foldr (fun p m => max p.2 m) acc.1 := by
  induction l with
  | nil => intro acc; rfl
  | cons p rest ih =>
    intro acc
    rcases p with ⟨i, s⟩
    simp only [bestFold, List.foldr_cons]
    by_cases h : acc.1 < s
    · rw [if_pos h, ih]
      have h2 := foldrMax_merge rest s acc.1
      rw [max_eq_left (le_of_lt h)] at h2
      exact h2
    · rw [if_neg h, ih]
      have hs : s ≤ acc.1 := not_lt.mp h
      have := foldrMax_le_seed rest acc.1
      exact (max_eq_right (le_trans hs this)).symm

theorem bestFold_fst_ge (l : List (Nat × Nat)) (acc : Nat × Option Nat) :
    acc.1 ≤ (bestFold l acc).1 := by
  rw [bestFold_fst]
  exact foldrMax_le_seed l acc.1

theorem bestFold_stay (l : List (Nat × Nat)) :
    ∀ acc : Nat × Option Nat, (bestFold l acc).1 = acc.1 →
      (bestFold l acc).2 = acc.2 := by
  induction l with
  | nil => intro acc _; rfl
  | cons p rest ih =>
    intro acc h
    rcases p with ⟨i, s⟩
    simp only [bestFold] at h ⊢
    by_cases hs : acc.1 < s
    · rw [if_pos hs] at h
      have := bestFold_fst_ge rest (s, some i)
      simp only at this
      omega
    · rw [if_neg hs] at h ⊢
      exact ih acc h

theorem bestFold_achieves (l : List Nat) :
    ∀ (k : Nat) (acc : Nat × Option Nat),
      acc.1 < (bestFold (List.enumFrom k l) acc).1 →
      ∃ j, j < l.length ∧ (bestFold (List.enumFrom k l) acc).2 = some (k + j) ∧
        l.getD j 0 = (bestFold (List.enumFrom k l) acc).1 := by
  induction l with
  | nil =>
    intro k acc h
    simp only [List.enumFrom_nil, bestFold] at h
    exact absurd h (lt_irrefl _)
  | cons s rest ih =>
    intro k acc h
    rw [List.enumFrom_cons] at h ⊢
    simp only [bestFold] at h ⊢
    by_cases hs : acc.1 < s
    · rw [if_pos hs] at h ⊢
      by_cases himp : s < (bestFold (List.enumFrom (k + 1) rest) (s, some k)).1
      · obtain ⟨j, hj, h2, h3⟩ := ih (k + 1) (s, some k) himp
        refine ⟨j + 1, by simpa using hj, ?_, by simpa using h3⟩
        rw [h2]
        congr 1
        omega
      · have hge := bestFold_fst_ge (List.enumFrom (k + 1) rest) (s, some k)
        simp only at hge
        have heq : (bestFold (List.enumFrom (k + 1) rest) (s, some k)).1 = s :=
          le_antisymm (not_lt.mp himp) hge
        have hsnd := bestFold_stay (List.enumFrom (k + 1) rest) (s, some k) heq
        exact ⟨0, by simp, by rw [hsnd]; simp, by simpa using heq.symm⟩
    · rw [if_neg hs] at h ⊢
      obtain ⟨j, hj, h2, h3⟩ := ih (k + 1) acc h
      refine ⟨j + 1, by simpa using hj, ?_, by simpa using h3⟩
      rw [h2]
      congr 1
      omega

/-- C1: the candidate matcher scores each of the first 10 candidates as
the maximum of the edit-similarity ratio and the token-set similarity
ratio of the normalized names, both scaled 0-100; when the best score
reaches 50 the selected candidate carries the maximum score, otherwise
the first candidate in result order is selected, so a candidate is
always chosen from a non-empty list.  For seed name
"Cafe Sữa Đá - Chi nhánh 2" and candidates
["Cafe Sua Da", "Highlands Coffee"], the first candidate scores
strictly higher and is selected. -/
theorem candidate_matcher_selects :
    (∀ name cands, candidateScores name cands =
      (cands.take 10).map (fun c =>
        max (fuzzRatio (normalize_place_name name) (normalize_place_name c))
          (tokenSetRatio (normalize_place_name name) (normalize_place_name c)))) ∧
    (∀ name cands, cands ≠ [] → ∃ i, selectCandidate name cands = some i) ∧
    (∀ name cands, 50 ≤ (candidateScores name cands).foldr max 0 →
      ∃ i, selectCandidate name cands = some i ∧
        i < (candidateScores name cands).length ∧
        (candidateScores name cands).getD i 0 =
          (candidateScores name cands).foldr max 0) ∧
    (∀ name cands, (candidateScores name cands).foldr max 0 < 50 → cands ≠ [] →
      selectCandidate name cands = some 0) ∧
    (selectCandidate "Cafe Sữa Đá - Chi nhánh 2" ["Cafe Sua Da", "Highlands Coffee"] =
        some 0 ∧
      (candidateScores "Cafe Sữa Đá - Chi nhánh 2"
          ["Cafe Sua Da", "Highlands Coffee"]).getD 1 0 <
        (candidateScores "Cafe Sữa Đá - Chi nhánh 2"
          ["Cafe Sua Da", "Highlands Coffee"]).getD 0 0) := by
  have hfst : ∀ name cands, (runBest name cands).1 =
      (candidateScores name cands).foldr max 0 := by
    intro name cands
    unfold runBest
    rw [bestFold_fst, enumFrom_foldr_max]
  have hemp : ∀ (cands : List String), cands ≠ [] → cands.isEmpty = false := by
    intro cands h
    cases cands with
    | nil => exact absurd rfl h
    | cons a t => rfl
  refine ⟨fun name cands => rfl, ?_, ?_, ?_, by decide, by decide⟩
  · intro name cands hne
    unfold selectCandidate
    rcases hrb : runBest name cands with ⟨bs, bl⟩
    cases bl with
    | none => exact ⟨0, by simp [hemp cands hne]⟩
    | some i =>
      by_cases h50 : 50 ≤ bs
      · exact ⟨i, by simp [h50]⟩
      · exact ⟨0, by simp [h50, hemp cands hne]⟩
  · intro name cands h50
    have h0 : ((0 : Nat), (none : Option Nat)).1 <
        (bestFold (List.enumFrom 0 (candidateScores name cands)) (0, none)).1 := by
      have h1 := hfst name cands
      unfold runBest at h1
      simp only [h1]
      omega
    obtain ⟨j, hj, h2, h3⟩ := bestFold_achieves (candidateScores name cands) 0 (0, none) h0
    have hsnd : (runBest name cands).2 = some (0 + j) := h2
    have hget : (candidateScores name cands).getD j 0 =
        (candidateScores name cands).foldr max 0 := by
      rw [h3]
      have h1 := hfst name cands
      unfold runBest at h1
      exact h1
    refine ⟨j, ?_, hj, hget⟩
    unfold selectCandidate
    rcases hrb : runBest name cands with ⟨bs, bl⟩
    have h2' : bl = some (0 + j) := by rw [hrb] at hsnd; exact hsnd
    have h1' : bs = (candidateScores name cands).foldr max 0 := by
      have := hfst name cands
      rw [hrb] at this
      exact this
    subst h2'
    change (if 50 ≤ bs then some (0 + j)
      else if cands.isEmpty = true then none else some 0) = some j
    rw [if_pos (by omega : 50 ≤ bs)]
    simp
  · intro name cands hlt hne
    unfold selectCandidate
    rcases hrb : runBest name cands with ⟨bs, bl⟩
    have h1' : bs = (candidateScores name cands).foldr max 0 := by
      have := hfst name cands
      rw [hrb] at this
      exact this
    cases bl with
    | none => simp [hemp cands hne]
    | some i =>
      change (if 50 ≤ bs then some i
        else if cands.isEmpty = true then none else some 0) = some 0
      rw [if_neg (by omega : ¬ 50 ≤ bs)]
      simp [hemp cands hne]

/-- Witness: C1 at the spec's concrete pair (best score 100 ≥ 50) and
at a dissimilar pair (best score 40 < 50, first-candidate fallback). -/
theorem candidate_matcher_selects_witness :
    (∃ i, selectCandidate "Cafe Sữa Đá - Chi nhánh 2"
          ["Cafe Sua Da", "Highlands Coffee"] = some i ∧
        i < (candidateScores "Cafe Sữa Đá - Chi nhánh 2"
            ["Cafe Sua Da", "Highlands Coffee"]).length ∧
        (candidateScores "Cafe Sữa Đá - Chi nhánh 2"
            ["Cafe Sua Da", "Highlands Coffee"]).getD i 0 =
          (candidateScores "Cafe Sữa Đá - Chi nhánh 2"
            ["Cafe Sua Da", "Highlands Coffee"]).foldr max 0) ∧
    selectCandidate "Tiệm Trà Chanh" ["Bánh Mì 362", "Phở Hòa"] = some 0 :=
  ⟨candidate_matcher_selects.2.2.1 "Cafe Sữa Đá - Chi nhánh 2"
      ["Cafe Sua Da", "Highlands Coffee"] (by decide),
   candidate_matcher_selects.2.2.2.1 "Tiệm Trà Chanh" ["Bánh Mì 362", "Phở Hòa"]
      (by decide) (by decide)⟩

/-! ### Properties of the orchestration and batch loop -/

theorem scrape_place_base (seed : Seed) (page : PageOutcomes) :
    (scrape_place seed page).name = seed.name ∧
    (scrape_place seed page).original_address = seed.address ∧
    (scrape_place seed page).lat = seed.lat ∧
    (scrape_place seed page).lon = seed.lon := by
  unfold scrape_place initResult
  repeat' split
  all_goals exact ⟨rfl, rfl, rfl, rfl⟩

theorem batchLoop_data :
    ∀ (l : List (Seed × SeedRun)) (i : Nat) (st : BatchState),
      (batchLoop i st l).data = st.data ++ l.filterMap (fun p =>
        match p.2 with
        | SeedRun.throws => none
        | SeedRun.runs page => some (batchRecord p.1 page)) := by
  intro l
  induction l with
  | nil => intro i st; simp [batchLoop]
  | cons p rest ih =>
    intro i st
    rcases p with ⟨s, run⟩
    cases run with
    | throws => simp [batchLoop, batchStep, ih]
    | runs page => simp [batchLoop, batchStep, ih]

/-- C3: every record the batch pipeline produces carries its seed's
identifier, name, original address, latitude and longitude — whatever
the extractor outcomes, including a page where every step raises — and
a seed whose processing throws at the record level is skipped while the
rest of the batch still runs: the output is exactly the per-seed
results of the non-throwing seeds, in order. -/
theorem per_seed_isolation :
    (∀ seed page, (scrape_place seed page).name = seed.name ∧
      (scrape_place seed page).original_address = seed.address ∧
      (scrape_place seed page).lat = seed.lat ∧
      (scrape_place seed page).lon = seed.lon) ∧
    (∀ seeds runsL, (scrape_csv_file seeds runsL).data =
      (seeds.zip runsL).filterMap (fun p =>
        match p.2 with
        | SeedRun.throws => none
        | SeedRun.runs page => some (batchRecord p.1 page))) ∧
    (∀ seeds runsL r, r ∈ (scrape_csv_file seeds runsL).data →
      ∃ s page, (s, SeedRun.runs page) ∈ seeds.zip runsL ∧
        r.place_id = some s.place_id ∧ r.name = s.name ∧
        r.original_address = s.address ∧ r.lat = s.lat ∧ r.lon = s.lon) := by
  have hdata : ∀ seeds runsL, (scrape_csv_file seeds runsL).data =
      (seeds.zip runsL).filterMap (fun p =>
        match p.2 with
        | SeedRun.throws => none
        | SeedRun.runs page => some (batchRecord p.1 page)) := by
    intro seeds runsL
    unfold scrape_csv_file
    simp [batchLoop_data]
  refine ⟨scrape_place_base, hdata, ?_⟩
  intro seeds runsL r hr
  rw [hdata] at hr
  obtain ⟨p, hp, hfp⟩ := List.mem_filterMap.mp hr
  rcases p with ⟨s, run⟩
  cases run with
  | throws => simp at hfp
  | runs page =>
    simp only [Option.some.injEq] at hfp
    subst hfp
    obtain ⟨h1, h2, h3, h4⟩ := scrape_place_base s page
    exact ⟨s, page, hp, rfl, h1, h2, h3, h4⟩

/-- Witness: C3 at a one-seed batch whose page raises at every step. -/
theorem per_seed_isolation_witness :
    ∃ s page, (s, SeedRun.runs page) ∈ [seedEx].zip [SeedRun.runs pageErr] ∧
      (batchRecord seedEx pageErr).place_id = some s.place_id ∧
      (batchRecord seedEx pageErr).name = s.name ∧
      (batchRecord seedEx pageErr).original_address = s.address ∧
      (batchRecord seedEx pageErr).lat = s.lat ∧
      (batchRecord seedEx pageErr).lon = s.lon :=
  per_seed_isolation.2.2 [seedEx] [SeedRun.runs pageErr] (batchRecord seedEx pageErr)
    (List.mem_singleton_self _)

theorem batchLoop_checkpoint :
    ∀ (l : List (Seed × SeedRun)) (i : Nat) (st : BatchState),
      1 ≤ i → (∀ p ∈ l, p.2.isRun = true) →
      st.data.length = i - 1 → diskCount st = 10 * ((i - 1) / 10) →
      (batchLoop i st l).data.length = i - 1 + l.length ∧
        diskCount (batchLoop i st l) = 10 * ((i - 1 + l.length) / 10) := by
  intro l
  induction l with
  | nil =>
    intro i st _ _ hd hdisk
    simp only [batchLoop, List.length_nil, Nat.add_zero]
    exact ⟨hd, hdisk⟩
  | cons p rest ih =>
    intro i st hi hall hd hdisk
    rcases p with ⟨s, run⟩
    cases run with
    | throws =>
      have := hall (s, SeedRun.throws) (List.mem_cons_self _ _)
      simp [SeedRun.isRun] at this
    | runs page =>
      simp only [batchLoop, batchStep]
      by_cases hmod : i % 10 = 0
      · have hbeq : (i % 10 == 0) = true := by simpa using hmod
        rw [if_pos hbeq]
        have := ih (i + 1)
          ⟨st.data ++ [batchRecord s page], some (st.data ++ [batchRecord s page])⟩
          (by omega) (fun q hq => hall q (List.mem_cons_of_mem _ hq))
          (by simp [hd]; omega)
          (by simp [diskCount, hd]; omega)
        exact ⟨by rw [this.1]; simp only [List.length_cons]; omega,
          by rw [this.2]; simp only [List.length_cons]; omega⟩
      · have hbeq : (i % 10 == 0) = false := by simpa using hmod
        rw [if_neg (by simp [hbeq])]
        have := ih (i + 1) ⟨st.data ++ [batchRecord s page], st.disk⟩
          (by omega) (fun q hq => hall q (List.mem_cons_of_mem _ hq))
          (by simp [hd]; omega)
          (by simp only [diskCount] at hdisk ⊢; rw [hdisk]; congr 1; omega)
        exact ⟨by rw [this.1]; simp only [List.length_cons]; omega,
          by rw [this.2]; simp only [List.length_cons]; omega⟩

/-- C6: when the first `k` batch iterations complete without a
record-level exception, the state at interruption point `k` has exactly
`k` accumulated records and the checkpoint file holds exactly
`10 * (k / 10)` of them (so at least `interval * floor(k / interval)`,
the checkpoint being written on every 10th iteration); and at batch end
the file is unconditionally rewritten with all accumulated records. -/
theorem batch_checkpoint_bound :
    (∀ seeds runsL (k : Nat), k ≤ (seeds.zip runsL).length →
      (∀ p ∈ (seeds.zip runsL).take k, p.2.isRun = true) →
      (batchAfter seeds runsL k).data.length = k ∧
        diskCount (batchAfter seeds runsL k) = 10 * (k / 10)) ∧
    (∀ seeds runsL, (scrape_csv_file seeds runsL).disk =
      some (scrape_csv_file seeds runsL).data) := by
  constructor
  · intro seeds runsL k hk hall
    have := batchLoop_checkpoint ((seeds.zip runsL).take k) 1 ⟨[], none⟩
      (le_refl 1) hall rfl rfl
    rw [List.length_take, Nat.min_eq_left hk] at this
    simpa [batchAfter] using this
  · intro seeds runsL
    rfl

/-- Witness: C6 on a 12-seed batch interrupted after 10 clean
iterations — the checkpoint file then holds 10 records. -/
theorem batch_checkpoint_bound_witness :
    (batchAfter (List.replicate 12 seedEx)
        (List.replicate 12 (SeedRun.runs pageErr)) 10).data.length = 10 ∧
      diskCount (batchAfter (List.replicate 12 seedEx)
        (List.replicate 12 (SeedRun.runs pageErr)) 10) = 10 * (10 / 10) :=
  batch_checkpoint_bound.1 (List.replicate 12 seedEx)
    (List.replicate 12 (SeedRun.runs pageErr)) 10 (by simp) (by decide)

/-! ### Properties of the merge tool -/

theorem dedupById_count_seen (k : Option String) :
    ∀ (l : List PlaceResult) (seen : List (Option String)), k ∈ seen →
      (dedupById seen l).countP (fun r => decide (r.place_id = k)) = 0 := by
  intro l
  induction l with
  | nil => intro seen _; rfl
  | cons x xs ih =>
    intro seen hk
    simp only [dedupById]
    by_cases hx : x.place_id ∈ seen
    · rw [if_pos hx]
      exact ih seen hk
    · rw [if_neg hx]
      have hne : x.place_id ≠ k := fun h => hx (h ▸ hk)
      rw [List.countP_cons]
      simp only [hne, decide_eq_true_eq, if_false, Nat.add_zero]
      exact ih (x.place_id :: seen) (List.mem_cons_of_mem _ hk)

theorem dedupById_count_le_one (k : Option String) :
    ∀ (l : List PlaceResult) (seen : List (Option String)),
      (dedupById seen l).countP (fun r => decide (r.place_id = k)) ≤ 1 := by
  intro l
  induction l with
  | nil => intro seen; simp [dedupById]
  | cons x xs ih =>
    intro seen
    simp only [dedupById]
    by_cases hx : x.place_id ∈ seen
    · rw [if_pos hx]
      exact ih seen
    · rw [if_neg hx]
      rw [List.countP_cons]
      by_cases hk : x.place_id = k
      · have hk' : k ∈ x.place_id :: seen := by
          rw [hk]
          exact List.mem_cons_self _ _
        have h0 := dedupById_count_seen k xs (x.place_id :: seen) hk'
        rw [h0]
        simp [hk]
      · simp only [hk, decide_eq_true_eq, if_false, Nat.add_zero]
        exact ih (x.place_id :: seen)

theorem dedupById_find (k : Option String) :
    ∀ (l : List PlaceResult) (seen : List (Option String)), k ∉ seen →
      (dedupById seen l).find? (fun r => decide (r.place_id = k)) =
        l.find? (fun r => decide (r.place_id = k)) := by
  intro l
  induction l with
  | nil => intro seen _; rfl
  | cons x xs ih =>
    intro seen hk
    simp only [dedupById]
    by_cases hx : x.place_id ∈ seen
    · rw [if_pos hx]
      have hne : x.place_id ≠ k := fun h => hk (h ▸ hx)
      rw [List.find?_cons_of_neg _ (by simpa using hne)]
      exact ih seen hk
    · rw [if_neg hx]
      by_cases hpk : x.place_id = k
      · rw [List.find?_cons_of_pos _ (by simpa using hpk),
          List.find?_cons_of_pos _ (by simpa using hpk)]
      · rw [List.find?_cons_of_neg _ (by simpa using hpk),
          List.find?_cons_of_neg _ (by simpa using hpk)]
        exact ih (x.place_id :: seen) (by
          intro hmem
          rcases List.mem_cons.mp hmem with h | h
          · exact hpk h.symm
          · exact hk h)

theorem dedupById_subset :
    ∀ (l : List PlaceResult) (seen : List (Option String)) (r : PlaceResult),
      r ∈ dedupById seen l → r ∈ l := by
  intro l
  induction l with
  | nil => intro seen r h; exact absurd h (by simp [dedupById])
  | cons x xs ih =>
    intro seen r h
    simp only [dedupById] at h
    by_cases hx : x.place_id ∈ seen
    · rw [if_pos hx] at h
      exact List.mem_cons_of_mem x (ih seen r h)
    · rw [if_neg hx] at h
      rcases List.mem_cons.mp h with h | h
      · exact h ▸ List.mem_cons_self x xs
      · exact List.mem_cons_of_mem x (ih (x.place_id :: seen) r h)

/-- C4: merging no files is a no-op; merging a non-empty set of shard
files produces the concatenation of their records in filename-sorted
order, deduplicated by identifier keeping the first occurrence (each
identifier at most once, and the survivor is the first occurrence of
that identifier in the sorted concatenation).  On the two concrete
overlapping shards, identifier "p1" appears exactly once in the merged
output and the surviving record comes from "a.json", the first file in
sort order. -/
theorem merge_dedup_first :
    merge_files [] = none ∧
    (∀ shards, shards ≠ [] →
      ∃ m, merge_files shards = some m ∧
        (∀ r ∈ m, r ∈ allShardData shards) ∧
        (∀ k : Option String, m.countP (fun r => decide (r.place_id = k)) ≤ 1) ∧
        (∀ k : Option String, m.find? (fun r => decide (r.place_id = k)) =
          (allShardData shards).find? (fun r => decide (r.place_id = k)))) ∧
    ((merge_files shardsEx).getD []).countP
        (fun r => decide (r.place_id = some "p1")) = 1 ∧
    ((merge_files shardsEx).getD []).find?
        (fun r => decide (r.place_id = some "p1")) = some (mkRec "p1" "from a") := by
  refine ⟨rfl, ?_, by rfl, by rfl⟩
  intro shards hne
  obtain ⟨s, rest, rfl⟩ : ∃ s rest, shards = s :: rest := by
    cases shards with
    | nil => exact absurd rfl hne
    | cons s rest => exact ⟨s, rest, rfl⟩
  refine ⟨dedupById [] (allShardData (s :: rest)), rfl, ?_, ?_, ?_⟩
  · intro r hr
    exact dedupById_subset _ [] r hr
  · intro k
    exact dedupById_count_le_one k _ []
  · intro k
    exact dedupById_find k _ [] (by simp)

/-- Witness: C4's non-empty branch at the concrete overlapping
shards. -/
theorem merge_dedup_first_witness :
    ∃ m, merge_files shardsEx = some m ∧
      (∀ r ∈ m, r ∈ allShardData shardsEx) ∧
      (∀ k : Option String, m.countP (fun r => decide (r.place_id = k)) ≤ 1) ∧
      (∀ k : Option String, m.find? (fun r => decide (r.place_id = k)) =
        (allShardData shardsEx).find? (fun r => decide (r.place_id = k))) :=
  merge_dedup_first.2.1 shardsEx (by unfold shardsEx; exact List.cons_ne_nil _ _)

/-! ### Properties of the relative-date resolver -/

theorem lowerChar_not_digit (c : Char) (h : c.isDigit = false) :
    (lowerChar c).isDigit = false := by
  unfold lowerChar
  rcases h1 : asciiUpperLower.find? (fun t => t.1 == c) with _ | t
  · rw [h1]
    rcases h2 : vnTriples.find? (fun t => t.1 == c) with _ | t
    · rw [h2]
      exact h
    · rw [h2]
      have ht := List.mem_of_find?_eq_some h2
      have hall : ∀ t ∈ vnTriples, (t.2.1).isDigit = false := by decide
      exact hall t ht
  · rw [h1]
    have ht := List.mem_of_find?_eq_some h1
    have hall : ∀ t ∈ asciiUpperLower, (t.2).isDigit = false := by decide
    exact hall t ht

theorem firstInt_of_no_digit (l : List Char) (h : ∀ c ∈ l, c.isDigit = false) :
    firstInt l = none := by
  induction l with
  | nil => rfl
  | cons c t ih =>
    simp only [firstInt]
    rw [if_neg (by simp [h c (List.mem_cons_self c t)])]
    exact ih fun d hd => h d (List.mem_cons_of_mem c hd)

/-- C5 counterexample: "3000 năm trước" carries the year unit and count
3000, but at capture ordinal 739901 (12/10/2026) subtracting
3000 × 365 days leaves the representable date range, `datetime` raises
`OverflowError`, and the catch-all returns `None` — not a date
1095000 days earlier as the claim requires for every phrase with a
matching unit. -/
theorem relative_date_overflow_counterexample :
    unitDays (vnLower "3000 năm trước") = some 365 ∧
    firstInt (vnLower "3000 năm trước").data = some 3000 ∧
    convert_relative_date 739901 "3000 năm trước" = none := by
  exact ⟨by decide, by decide, by decide⟩

/-- C5 (amended): the resolver parses the first integer of the phrase
(defaulting to 1) and a unit token (day/week/month/year, Vietnamese or
English), and returns the capture ordinal minus count × the fixed
unit-to-days approximation (day 1, week 7, month 30, year 365) whenever
that result is still a representable date; it returns absent when no
unit token matches, and also when the count is so large that the
subtraction leaves the representable date range (an `OverflowError`
swallowed by the catch-all).  "2 tháng trước" at fixed capture ordinal
739901 resolves to exactly 60 days earlier. -/
theorem relative_date_resolution :
    (∀ (nowOrd : Nat) (t : String), unitDays (vnLower t) = none →
      convert_relative_date nowOrd t = none) ∧
    (∀ (nowOrd : Nat) (t : String) (d : Nat), convert_relative_date nowOrd t = some d →
      ∃ u, unitDays (vnLower t) = some u ∧
        d = nowOrd - (firstInt (vnLower t).data).getD 1 * u ∧
        (firstInt (vnLower t).data).getD 1 * u < nowOrd) ∧
    (∀ (nowOrd : Nat) (t : String) (u : Nat), unitDays (vnLower t) = some u →
      (999999999 < (firstInt (vnLower t).data).getD 1 * u ∨
        nowOrd ≤ (firstInt (vnLower t).data).getD 1 * u) →
      convert_relative_date nowOrd t = none) ∧
    convert_relative_date 739901 "2 tháng trước" = some (739901 - 60) := by
  refine ⟨?_, ?_, ?_, by decide⟩
  · intro nowOrd t h
    unfold convert_relative_date
    by_cases ht : t.length = 0
    · rw [if_pos ht]
    · rw [if_neg ht, h]
  · intro nowOrd t d h
    unfold convert_relative_date at h
    by_cases ht : t.length = 0
    · rw [if_pos ht] at h
      exact absurd h (by simp)
    · rw [if_neg ht] at h
      rcases hu : unitDays (vnLower t) with _ | u
      · rw [hu] at h
        exact absurd h (by simp)
      · rw [hu] at h
        have h' : (if (firstInt (vnLower t).data).getD 1 * u ≤ 999999999 ∧
              (firstInt (vnLower t).data).getD 1 * u < nowOrd
            then some (nowOrd - (firstInt (vnLower t).data).getD 1 * u)
            else none) = some d := h
        by_cases hcond : (firstInt (vnLower t).data).getD 1 * u ≤ 999999999 ∧
            (firstInt (vnLower t).data).getD 1 * u < nowOrd
        · rw [if_pos hcond] at h'
          exact ⟨u, rfl, (Option.some.inj h').symm, hcond.2⟩
        · rw [if_neg hcond] at h'
          exact absurd h' (by simp)
  · intro nowOrd t u hu hbig
    unfold convert_relative_date
    by_cases ht : t.length = 0
    · rw [if_pos ht]
    · rw [if_neg ht, hu]
      show (if (firstInt (vnLower t).data).getD 1 * u ≤ 999999999 ∧
          (firstInt (vnLower t).data).getD 1 * u < nowOrd
        then some (nowOrd - (firstInt (vnLower t).data).getD 1 * u)
        else none) = none
      rw [if_neg (by omega)]

/-- Witness: amended C5 applied at "2 tháng trước" (count 2, month
unit, 739841 = 739901 − 60) and, for the overflow branch, at
"3000 năm trước". -/
theorem relative_date_resolution_witness :
    (∃ u, unitDays (vnLower "2 tháng trước") = some u ∧
      739841 = 739901 - (firstInt (vnLower "2 tháng trước").data).getD 1 * u ∧
      (firstInt (vnLower "2 tháng trước").data).getD 1 * u < 739901) ∧
    convert_relative_date 739901 "3000 năm trước" = none :=
  ⟨relative_date_resolution.2.1 739901 "2 tháng trước" 739841 (by decide),
   relative_date_resolution.2.2.1 739901 "3000 năm trước" 365 (by decide)
     (Or.inr (by decide))⟩

/-- C10: a phrase containing a recognized unit token but no digit
defaults the count to 1, so the resolver returns a date — the capture
ordinal minus one unit's day-equivalent — rather than absent (for any
capture ordinal past day 365, which every valid `datetime.now()` is);
in particular the bare month phrase "tháng trước" resolves to exactly
30 days before the capture instant. -/
theorem relative_date_default_count :
    (∀ (nowOrd : Nat) (t : String) (u : Nat), unitDays (vnLower t) = some u →
      (∀ c ∈ t.data, c.isDigit = false) → 365 < nowOrd →
      convert_relative_date nowOrd t = some (nowOrd - u)) ∧
    convert_relative_date 739901 "tháng trước" = some (739901 - 30) := by
  refine ⟨?_, by decide⟩
  intro nowOrd t u hu hnd hnow
  have hfi : firstInt (vnLower t).data = none := by
    apply firstInt_of_no_digit
    intro c hc
    simp only [vnLower] at hc
    obtain ⟨c₀, hc₀, rfl⟩ := List.mem_map.mp hc
    exact lowerChar_not_digit c₀ (hnd c₀ hc₀)
  have hu365 : u ≤ 365 := by
    unfold unitDays at hu
    split at hu
    · simp only [Option.some.injEq] at hu
      omega
    · split at hu
      · simp only [Option.some.injEq] at hu
        omega
      · split at hu
        · simp only [Option.some.injEq] at hu
          omega
        · split at hu
          · simp only [Option.some.injEq] at hu
            omega
          · exact absurd hu (by simp)
  have ht : ¬ t.length = 0 := by
    intro h0
    have hdata : t.data = [] := List.length_eq_zero.mp h0
    have hvl : vnLower t = "" := by
      unfold vnLower
      rw [hdata]
      rfl
    rw [hvl] at hu
    rw [show unitDays "" = none from by decide] at hu
    exact absurd hu (by simp)
  unfold convert_relative_date
  rw [if_neg ht, hu, hfi]
  show (if (1 : Nat) * u ≤ 999999999 ∧ (1 : Nat) * u < nowOrd
    then some (nowOrd - 1 * u) else none) = some (nowOrd - u)
  rw [if_pos (by omega)]
  rw [Nat.one_mul]

/-- Witness: C10 at the bare month phrase. -/
theorem relative_date_default_count_witness :
    convert_relative_date 739901 "tháng trước" = some (739901 - 30) :=
  relative_date_default_count.1 739901 "tháng trước" 30 (by decide) (by decide)
    (by decide)

/-! ### Properties of the image extractor -/

theorem imagesLoop_length :
    ∀ (srcs : List (Option String)) (seen : List (List Char)) (cnt : Nat), cnt ≤ 2 →
      (imagesLoop seen cnt srcs).length ≤ 3 - cnt := by
  intro srcs
  induction srcs with
  | nil => intro seen cnt _; simp [imagesLoop]
  | cons o rest ih =>
    intro seen cnt hcnt
    cases o with
    | none =>
      simp only [imagesLoop]
      exact ih seen cnt hcnt
    | some src =>
      simp only [imagesLoop]
      by_cases hk : keepImg src = true
      · rw [if_pos hk]
        by_cases hs : baseBefore src.data ∈ seen
        · rw [if_pos hs]
          exact ih seen cnt hcnt
        · rw [if_neg hs]
          by_cases h3 : 3 ≤ cnt + 1
          · rw [if_pos h3]
            simp
            omega
          · rw [if_neg h3]
            have := ih (baseBefore src.data :: seen) (cnt + 1) (by omega)
            simp only [List.length_cons]
            omega
      · rw [if_neg hk]
        exact ih seen cnt hcnt

theorem imagesLoop_keep :
    ∀ (srcs : List (Option String)) (seen : List (List Char)) (cnt : Nat),
      ∀ u ∈ imagesLoop seen cnt srcs, keepImg u = true := by
  intro srcs
  induction srcs with
  | nil => intro seen cnt u hu; simp [imagesLoop] at hu
  | cons o rest ih =>
    intro seen cnt u hu
    cases o with
    | none =>
      simp only [imagesLoop] at hu
      exact ih seen cnt u hu
    | some src =>
      simp only [imagesLoop] at hu
      by_cases hk : keepImg src = true
      · rw [if_pos hk] at hu
        by_cases hs : baseBefore src.data ∈ seen
        · rw [if_pos hs] at hu
          exact ih seen cnt u hu
        · rw [if_neg hs] at hu
          by_cases h3 : 3 ≤ cnt + 1
          · rw [if_pos h3] at hu
            simp only [List.mem_singleton] at hu
            exact hu ▸ hk
          · rw [if_neg h3] at hu
            rcases List.mem_cons.mp hu with h | h
            · exact h ▸ hk
            · exact ih (baseBefore src.data :: seen) (cnt + 1) u h
      · rw [if_neg hk] at hu
        exact ih seen cnt u hu

theorem imagesLoop_bases :
    ∀ (srcs : List (Option String)) (seen : List (List Char)) (cnt : Nat),
      (∀ u ∈ imagesLoop seen cnt srcs, baseBefore u.data ∉ seen) ∧
      (imagesLoop seen cnt srcs).Pairwise
        (fun a b => baseBefore a.data ≠ baseBefore b.data) := by
  intro srcs
  induction srcs with
  | nil => intro seen cnt; simp [imagesLoop]
  | cons o rest ih =>
    intro seen cnt
    cases o with
    | none =>
      simp only [imagesLoop]
      exact ih seen cnt
    | some src =>
      simp only [imagesLoop]
      by_cases hk : keepImg src = true
      · rw [if_pos hk]
        by_cases hs : baseBefore src.data ∈ seen
        · rw [if_pos hs]
          exact ih seen cnt
        · rw [if_neg hs]
          by_cases h3 : 3 ≤ cnt + 1
          · rw [if_pos h3]
            constructor
            · intro u hu
              simp only [List.mem_singleton] at hu
              exact hu ▸ hs
            · simp
          · rw [if_neg h3]
            obtain ⟨ihm, ihp⟩ := ih (baseBefore src.data :: seen) (cnt + 1)
            constructor
            · intro u hu
              rcases List.mem_cons.mp hu with h | h
              · exact h ▸ hs
              · intro hmem
                exact ihm u h (List.mem_cons_of_mem _ hmem)
            · rw [List.pairwise_cons]
              refine ⟨?_, ihp⟩
              intro u hu heq
              exact ihm u hu (heq ▸ List.mem_cons_self _ _)
      · rw [if_neg hk]
        exact ih seen cnt

/-- C7: every URL `_get_images` keeps comes from the provider's asset
CDN (a `googleusercontent.com` / `ggpht.com` host substring), contains
none of the small-width thumbnail tokens, and its first embedded
`=w<digits>` width token is at least 100; the kept URLs have pairwise
distinct base URLs (the prefix before the first `=w` size suffix); and
at most 3 URLs are kept. -/
theorem images_filter_spec :
    ∀ srcs : List (Option String),
      (get_images srcs).length ≤ 3 ∧
      (∀ u ∈ get_images srcs,
        (containsStr "googleusercontent.com" u || containsStr "ggpht.com" u) = true ∧
        imgSmallTokens.any (fun tok => containsStr tok u) = false ∧
        ∃ n, firstWidthTok u.data = some n ∧ 100 ≤ n) ∧
      (get_images srcs).Pairwise
        (fun a b => baseBefore a.data ≠ baseBefore b.data) := by
  intro srcs
  refine ⟨imagesLoop_length srcs [] 0 (by omega), ?_, (imagesLoop_bases srcs [] 0).2⟩
  intro u hu
  have hk := imagesLoop_keep srcs [] 0 u hu
  unfold keepImg at hk
  simp only [Bool.and_eq_true, Bool.not_eq_true'] at hk
  obtain ⟨⟨⟨hcdn, -⟩, hsmall⟩, hwidth⟩ := hk
  refine ⟨hcdn, hsmall, ?_⟩
  rcases hw : firstWidthTok u.data with _ | n
  · rw [hw] at hwidth
    exact absurd hwidth (by simp)
  · rw [hw] at hwidth
    exact ⟨n, rfl, by simpa using hwidth⟩

/-- Witness: C7 on a concrete page with a duplicate base URL, a
thumbnail, a missing attribute and two valid CDN images. -/
theorem images_filter_spec_witness :
    (containsStr "googleusercontent.com" "https://lh3.googleusercontent.com/p/a=w408-h306"
        || containsStr "ggpht.com" "https://lh3.googleusercontent.com/p/a=w408-h306") = true ∧
    imgSmallTokens.any
      (fun tok => containsStr tok "https://lh3.googleusercontent.com/p/a=w408-h306") = false ∧
    ∃ n, firstWidthTok "https://lh3.googleusercontent.com/p/a=w408-h306".data = some n ∧
      100 ≤ n :=
  (images_filter_spec
      [some "https://lh3.googleusercontent.com/p/a=w408-h306",
       some "https://lh3.googleusercontent.com/p/a=w99",
       some "https://x.ggpht.com/g=w30", none,
       some "https://x.ggpht.com/h=w200"]).2.1
    "https://lh3.googleusercontent.com/p/a=w408-h306" (by decide)

/-! ### Properties of the website cleaner -/

/-- C9 counterexample: a redirect-wrapper URL whose embedded target is
the provider's own maps site is unwrapped and returned non-absent even
though it points back to `google.com/maps` — the wrapper branch returns
before the provider-domain rejection is reached. -/
theorem clean_website_wrapper_counterexample :
    containsStr "google.com/maps"
      "https://www.google.com/url?q=https://www.google.com/maps&sa=x" = true ∧
    clean_website_url "https://www.google.com/url?q=https://www.google.com/maps&sa=x" =
      some "https://www.google.com/maps" := by
  exact ⟨by decide, by decide⟩

/-- C9 (amended): a redirect-wrapper URL — one containing
"google.com/url" and "?q=" whose `q` parameter matches — is unwrapped
to its percent-decoded target and returned with no further check (even
when that target, or the wrapper itself, points back to the map
provider); every other non-empty URL is rejected exactly when it
contains the provider's "google.com/maps" domain, and passed through
unchanged otherwise. -/
theorem clean_website_spec :
    (∀ (url : String) (v : List Char), url.length ≠ 0 →
      containsStr "google.com/url" url = true → containsStr "?q=" url = true →
      findQParam url.data = some v →
      clean_website_url url = some ⟨percentDecode v⟩) ∧
    (∀ url : String, url.length ≠ 0 →
      (containsStr "google.com/url" url = false ∨ containsStr "?q=" url = false ∨
        findQParam url.data = none) →
      clean_website_url url =
        if containsStr "google.com/maps" url = true then none else some url) ∧
    clean_website_url "" = none := by
  refine ⟨?_, ?_, rfl⟩
  · intro url v h0 h1 h2 hq
    unfold clean_website_url
    rw [if_neg h0, if_pos (by simp [h1, h2]), hq]
  · intro url h0 hcase
    unfold clean_website_url
    rw [if_neg h0]
    by_cases hw : containsStr "google.com/url" url = true ∧ containsStr "?q=" url = true
    · rw [if_pos (by simp [hw.1, hw.2])]
      have hq : findQParam url.data = none := by
        rcases hcase with h | h | h
        · rw [hw.1] at h
          exact absurd h (by simp)
        · rw [hw.2] at h
          exact absurd h (by simp)
        · exact h
      rw [hq]
    · rw [if_neg (by simpa [not_and_or] using hw)]

/-- Witness: C9 unwrapping an external target, and the plain
provider-domain rejection. -/
theorem clean_website_spec_witness :
    clean_website_url "https://www.google.com/url?q=https%3A%2F%2Fexample.com%2Fx&sa=y" =
      some ⟨percentDecode "https%3A%2F%2Fexample.com%2Fx".data⟩ ∧
    clean_website_url "https://www.google.com/maps/place/Foo" =
      (if containsStr "google.com/maps" "https://www.google.com/maps/place/Foo" = true
       then none else some "https://www.google.com/maps/place/Foo") :=
  ⟨clean_website_spec.1 "https://www.google.com/url?q=https%3A%2F%2Fexample.com%2Fx&sa=y"
      "https%3A%2F%2Fexample.com%2Fx".data (by decide) (by decide) (by decide) (by decide),
   clean_website_spec.2.1 "https://www.google.com/maps/place/Foo" (by decide)
      (Or.inl (by decide))⟩
